import Mathlib

/-!
Verification development for `extsort.py`, an external sort: the input file
is cut into memory-bounded runs, each run is sorted in memory and written to
a numbered block file, and the block files are then merged by an N-way merge
into the output file.

Shallow embedding conventions: records are elements of an arbitrary type
`α` (in the program: single text lines, terminator included); a file is a
`List α` of the records it still holds; `readline()` at end of file is
modelled by an out-of-band `none` instead of the empty-string sentinel the
Python code uses, since a genuine line read from a text file is never the
empty string.  Sizes (`len(line)`) are supplied by a `size : α → Nat`
function, and the ordering used by the in-memory sort is a parameter `r`
(Python compares lines with `<`, natural text order; an optional `sort_key`
induces the order `keyLE`).  Python's `list.sort` is a stable sort and is
modelled by `List.insertionSort`, which computes the same (unique) stable
sort.  A raised exception is modelled by `none` in an `Option` result.
-/

namespace Extsort

variable {α β : Type}

/-! ## Split phase: `FileSplitter` -/

/-- Python `file.readlines(block_size)` inside `FileSplitter.split`: read
whole lines, accumulating their sizes, and stop after the line that makes
the total reach the block budget `B` (lines are never cut mid-record, so
the last line of a run may push the total over `B`).  Returns the run read
and the rest of the file; `acc` is the size read so far. -/
def FileSplitter.readBlock (B : Nat) (size : α → Nat) : Nat → List α → List α × List α
  | _, [] => ([], [])
  | acc, r :: rs =>
    if B ≤ acc + size r then ([r], rs)
    else
      let p := FileSplitter.readBlock B size (acc + size r) rs
      (r :: p.1, p.2)

/-- Reading loop of `FileSplitter.split` (`while True: lines = file.readlines(...)`),
with explicit fuel.  Every `readlines` call on a non-empty rest returns at
least one line, so `l.length` steps (supplied in `FileSplitter.splitChunks`)
always suffice and the zero-fuel branch is unreachable. -/
def FileSplitter.splitGo (B : Nat) (size : α → Nat) : Nat → List α → List (List α)
  | _, [] => []
  | 0, _ :: _ => []
  | fuel + 1, r :: rs =>
    let p := FileSplitter.readBlock B size 0 (r :: rs)
    p.1 :: FileSplitter.splitGo B size fuel p.2

/-- The ordered sequence of (unsorted) runs `FileSplitter.split` reads;
run `i` becomes block file `block_i.dat`. -/
def FileSplitter.splitChunks (B : Nat) (size : α → Nat) (l : List α) : List (List α) :=
  FileSplitter.splitGo B size l.length l

/-- Python `FileSplitter.split`: cut the input into runs and sort each run
in memory (`lines.sort()` when `sort_key is None`, `lines.sort(key=...)`
otherwise - a stable sort under the ordering relation `r`).  The result is
the ordered list of block contents, in block-index order. -/
def FileSplitter.split (r : α → α → Prop) [DecidableRel r] (B : Nat) (size : α → Nat)
    (l : List α) : List (List α) :=
  (FileSplitter.splitChunks B size l).map (fun c => c.insertionSort r)

/-- Ordering relation induced by a supplied key function (`sort_key`). -/
def keyLE [LinearOrder β] (k : α → β) (a b : α) : Prop := k a ≤ k b

instance [LinearOrder β] (k : α → β) : DecidableRel (keyLE k) := fun a b =>
  inferInstanceAs (Decidable (k a ≤ k b))

instance [LinearOrder β] (k : α → β) : IsTotal α (keyLE k) :=
  ⟨fun a b => le_total (k a) (k b)⟩

instance [LinearOrder β] (k : α → β) : IsTrans α (keyLE k) :=
  ⟨fun _ _ _ => le_trans⟩

/-! ## Merge phase: `FilesArray`, `NWayMerge`, `FileMerger` -/

/-- State of one open block stream during the merge.  `FilesArray` holds one
per block file: the unread rest of the file (`self.files[i]`), the
one-record lookahead buffer `self.buffers[i]` (Python `None` / a record /
the empty-string end-of-file marker, modelled as `none` / `some (some r)` /
`some none`), and membership of `i` in the `self.empty` set. -/
structure FileStream (α : Type) where
  file : List α
  buf : Option (Option α)
  exhausted : Bool
deriving DecidableEq

/-- Body of the `for i in range(self.num_buffers)` loop of
`FilesArray.refresh`, for one stream: if the buffer is `None` and the stream
is not in the `empty` set, read one line; an end-of-file read stores the
marker in the buffer and adds the stream to the `empty` set. -/
def FilesArray.refreshOne (s : FileStream α) : FileStream α :=
  if s.buf.isNone && !s.exhausted then
    match s.file with
    | [] => { s with buf := some none, exhausted := true }
    | r :: rs => { file := rs, buf := some (some r), exhausted := s.exhausted }
  else s

/-- Python `FilesArray.refresh`: fill every empty, non-exhausted buffer with
one `readline()` from its stream, then return `False` iff every stream is
now in the `empty` set (`len(self.empty) == self.num_buffers`). -/
def FilesArray.refresh (ss : List (FileStream α)) : List (FileStream α) × Bool :=
  (ss.map FilesArray.refreshOne, !(ss.map FilesArray.refreshOne).all (fun s => s.exhausted))

/-- Python `FilesArray.get_dict`: the mapping from stream index to buffered
value for every stream index not in the `empty` set, in ascending index
order (Python dict comprehension over `range(self.num_buffers)`). -/
def FilesArray.getDict (ss : List (FileStream α)) : List (Nat × Option (Option α)) :=
  (ss.enum.filter (fun p => !p.2.exhausted)).map (fun p => (p.1, p.2.buf))

/-- Python `FilesArray.unshift`: hand out the buffered value of stream `i`
and reset that buffer to `None`; the exhaustion status of `i` is untouched.
The outer `none` models the `KeyError` raised when `i` is not one of the
buffer keys `0..num_buffers - 1`. -/
def FilesArray.unshift (ss : List (FileStream α)) (i : Nat) :
    Option (Option (Option α) × List (FileStream α)) :=
  match ss[i]? with
  | some s => some (s.buf, ss.set i { s with buf := none })
  | none => none

/-- Body of the `for i in range(len(choices))` loop of `NWayMerge.select`,
for index `i` and state `(min_index, min_str)`.  Python:
`if min_str is None or choices[i] < min_str: min_index = i`.
`min_str` starts as `None` and the loop body never assigns it, so the first
disjunct holds at every iteration and the comparison `choices[i] < min_str`
is short-circuited away; only `min_index` is ever updated.  The `some m`
branch below renders the comparison that the code would perform if `min_str`
ever held a record (`none` models the `KeyError` were `i` not an active
index); it is dead code, exactly as in the source. -/
def NWayMerge.selectStep [LinearOrder α] (choices : List (Nat × Option (Option α)))
    (st : Int × Option α) (i : Nat) : Option (Int × Option α) :=
  match st.2 with
  | none => some ((i : Int), none)
  | some m =>
    match choices.lookup i with
    | some (some (some v)) => some (if v < m then ((i : Int), some m) else st)
    | _ => none

/-- Python `NWayMerge.select`: iterate `i` over `range(len(choices))`
tracking `min_index` (initially `-1`) and `min_str` (initially `None`), and
return `min_index`. -/
def NWayMerge.select [LinearOrder α] (choices : List (Nat × Option (Option α))) : Option Int :=
  ((List.range choices.length).foldlM (NWayMerge.selectStep choices)
    ((-1 : Int), (none : Option α))).map Prod.fst

/-- The `while buffers.refresh()` loop of `FileMerger.merge`, with explicit
fuel.  One iteration refreshes the buffers, stops when every stream is
exhausted, otherwise selects a stream index, takes that stream's buffered
value with `unshift` and writes it to the output.  A `none` result models a
raised exception: `KeyError` when the selected index is not a buffer key,
`TypeError` when the unshifted value is Python `None`; writing the
empty-string end-of-file marker appends nothing to the output.  The fuel
supplied by `FileMerger.merge` is sufficient for every run that does not
raise, since each iteration consumes one buffered value. -/
def FileMerger.mergeLoop [LinearOrder α] : Nat → List (FileStream α) → List α → Option (List α)
  | 0, _, _ => none
  | fuel + 1, ss, out =>
    if (FilesArray.refresh ss).2 then
      match NWayMerge.select (FilesArray.getDict (FilesArray.refresh ss).1) with
      | none => none
      | some idx =>
        if 0 ≤ idx then
          match FilesArray.unshift (FilesArray.refresh ss).1 idx.toNat with
          | some (some (some r), ss2) => FileMerger.mergeLoop fuel ss2 (out ++ [r])
          | some (some none, ss2) => FileMerger.mergeLoop fuel ss2 out
          | some (none, _) => none
          | none => none
        else none
    else some out

/-- Python `FileMerger.merge` applied to the contents of the block files:
open one stream per block (all buffers `None`, `empty` set empty) and run
the merge loop; the result is the sequence of records written to the output
file.  Buffer byte sizes given to `open` do not affect the record sequence
and are dropped. -/
def FileMerger.merge [LinearOrder α] (blocks : List (List α)) : Option (List α) :=
  FileMerger.mergeLoop ((blocks.map List.length).sum + 1)
    (blocks.map (fun b => ⟨b, none, false⟩)) []

/-- Python `ExternalSort.sort` with the default `sort_key=None`: split, then
merge the block files into the output.  `get_number_blocks` divides the file
size by `block_size` before anything else, so a zero block size raises
`ZeroDivisionError` (modelled by `none`).  The block count only enters the
per-stream buffer size, which does not affect the record sequence. -/
def ExternalSort.sort [LinearOrder α] (B : Nat) (size : α → Nat) (l : List α) :
    Option (List α) :=
  if B = 0 then none
  else FileMerger.merge (FileSplitter.split (fun a b => a ≤ b) B size l)

/-! ## Behaviour of `NWayMerge.select` -/

/-- With `min_str = None` the loop body only records the index. -/
theorem NWayMerge.selectStep_none [LinearOrder α] (choices : List (Nat × Option (Option α)))
    (k : Int) (i : Nat) :
    NWayMerge.selectStep choices (k, none) i = some ((i : Int), none) := rfl

/-- The `min_str = None` state is invariant across the whole fold, so the
fold just records the last index. -/
theorem NWayMerge.foldlM_selectStep [LinearOrder α] (choices : List (Nat × Option (Option α))) :
    ∀ (l : List Nat) (k : Int),
      l.foldlM (NWayMerge.selectStep choices) (k, (none : Option α)) =
        some (l.foldl (fun (_ : Int) (i : Nat) => (i : Int)) k, none)
  | [], _ => rfl
  | i :: is, k => by
    rw [List.foldlM_cons, NWayMerge.selectStep_none]
    simpa using NWayMerge.foldlM_selectStep choices is i

/-- Recording the last index over `List.range n`, starting from `-1`,
yields `n - 1`. -/
theorem foldl_range_last : ∀ n : Nat,
    (List.range n).foldl (fun (_ : Int) (i : Nat) => (i : Int)) (-1) = (n : Int) - 1
  | 0 => rfl
  | n + 1 => by
    rw [List.range_succ, List.foldl_append]
    simp

/-- `NWayMerge.select` returns `len(choices) - 1` whatever the contents of
the pending records. -/
theorem NWayMerge.select_eq [LinearOrder α] (choices : List (Nat × Option (Option α))) :
    NWayMerge.select choices = some ((choices.length : Int) - 1) := by
  unfold NWayMerge.select
  rw [NWayMerge.foldlM_selectStep, foldl_range_last]
  rfl

/-! ## Behaviour of the split phase -/

/-- One `readlines` call returns a run and the rest of the file. -/
theorem FileSplitter.readBlock_append (B : Nat) (size : α → Nat) :
    ∀ (l : List α) (acc : Nat),
      (FileSplitter.readBlock B size acc l).1 ++ (FileSplitter.readBlock B size acc l).2 = l
  | [], _ => rfl
  | r :: rs, acc => by
    simp only [FileSplitter.readBlock]
    split
    · rfl
    · simpa using FileSplitter.readBlock_append B size rs (acc + size r)

/-- A `readlines` call on a non-exhausted file returns at least one line. -/
theorem FileSplitter.readBlock_fst_ne_nil (B : Nat) (size : α → Nat) (r : α) (rs : List α)
    (acc : Nat) : (FileSplitter.readBlock B size acc (r :: rs)).1 ≠ [] := by
  simp only [FileSplitter.readBlock]
  split
  · simp
  · simp

/-- Concatenating the runs gives back the input (fuelled version). -/
theorem FileSplitter.splitGo_flatten (B : Nat) (size : α → Nat) :
    ∀ (fuel : Nat) (l : List α), l.length ≤ fuel →
      (FileSplitter.splitGo B size fuel l).flatten = l
  | _, [], _ => by
    cases ‹Nat› <;> rfl
  | 0, _ :: _, h => by simp at h
  | fuel + 1, r :: rs, h => by
    simp only [FileSplitter.splitGo, List.flatten_cons]
    have happ := FileSplitter.readBlock_append B size (r :: rs) 0
    have hne := FileSplitter.readBlock_fst_ne_nil B size r rs 0
    have hlen : (FileSplitter.readBlock B size 0 (r :: rs)).2.length ≤ fuel := by
      have := congrArg List.length happ
      simp only [List.length_append, List.length_cons] at this
      have h1 : 1 ≤ (FileSplitter.readBlock B size 0 (r :: rs)).1.length :=
        List.length_pos.mpr hne
      simp only [List.length_cons] at h
      omega
    rw [FileSplitter.splitGo_flatten B size fuel _ hlen, happ]

/-- Concatenating the runs gives back the input. -/
theorem FileSplitter.splitChunks_flatten (B : Nat) (size : α → Nat) (l : List α) :
    (FileSplitter.splitChunks B size l).flatten = l :=
  FileSplitter.splitGo_flatten B size l.length l le_rfl

/-- Every run read by the splitter holds at least one record (fuelled
version). -/
theorem FileSplitter.splitGo_ne_nil (B : Nat) (size : α → Nat) :
    ∀ (fuel : Nat) (l : List α), ∀ c ∈ FileSplitter.splitGo B size fuel l, c ≠ []
  | _, [], c, hc => by
    cases ‹Nat› <;> simp [FileSplitter.splitGo] at hc
  | 0, _ :: _, c, hc => by simp [FileSplitter.splitGo] at hc
  | fuel + 1, r :: rs, c, hc => by
    simp only [FileSplitter.splitGo, List.mem_cons] at hc
    rcases hc with rfl | hc
    · exact FileSplitter.readBlock_fst_ne_nil B size r rs 0
    · exact FileSplitter.splitGo_ne_nil B size fuel _ c hc

/-- Every run read by the splitter holds at least one record. -/
theorem FileSplitter.splitChunks_ne_nil (B : Nat) (size : α → Nat) (l : List α) :
    ∀ c ∈ FileSplitter.splitChunks B size l, c ≠ [] :=
  FileSplitter.splitGo_ne_nil B size l.length l

/-- Every block written by the splitter holds at least one record. -/
theorem FileSplitter.split_ne_nil (r : α → α → Prop) [DecidableRel r] (B : Nat)
    (size : α → Nat) (l : List α) : ∀ b ∈ FileSplitter.split r B size l, b ≠ [] := by
  intro b hb
  simp only [FileSplitter.split, List.mem_map] at hb
  obtain ⟨c, hc, rfl⟩ := hb
  have := FileSplitter.splitChunks_ne_nil B size l c hc
  intro hnil
  have hlen := List.length_insertionSort r c
  rw [hnil] at hlen
  exact this (List.eq_nil_of_length_eq_zero hlen.symm)

/-- Sorting each run preserves the records of the concatenation. -/
theorem flatten_map_insertionSort_perm (r : α → α → Prop) [DecidableRel r] :
    ∀ cs : List (List α),
      ((cs.map (fun c => c.insertionSort r)).flatten).Perm cs.flatten
  | [] => .refl _
  | c :: cs => by
    simp only [List.map_cons, List.flatten_cons]
    exact (List.perm_insertionSort r c).append (flatten_map_insertionSort_perm r cs)

/-- The blocks written by the split phase hold exactly the input records. -/
theorem FileSplitter.split_flatten_perm (r : α → α → Prop) [DecidableRel r] (B : Nat)
    (size : α → Nat) (l : List α) : ((FileSplitter.split r B size l).flatten).Perm l := by
  unfold FileSplitter.split
  have h := flatten_map_insertionSort_perm r (FileSplitter.splitChunks B size l)
  rwa [FileSplitter.splitChunks_flatten] at h

/-! ## Reachable buffer states of the merge loop

Because `NWayMerge.select` always returns the number of active streams
minus one, a merge over non-empty blocks keeps its non-exhausted streams as
the contiguous range `0, ..., k-1` of the stream indices: below the top
active stream every buffer is full, the top active stream's buffer is empty
(right after a consume) or full, and every stream above it is exhausted.
The normal form `mkState` captures the states at the start of a loop
iteration; `FileMerger.mergeLoop_run` below shows it is preserved by every
iteration and that the selected stream is always the top active one. -/

/-- Stream with a full lookahead buffer: record `p.1` buffered, rest `p.2`
unread. -/
def fullSt (p : α × List α) : FileStream α := ⟨p.2, some (some p.1), false⟩

/-- Exhausted stream: end-of-file marker in the buffer, member of `empty`. -/
def exhSt : FileStream α := ⟨[], some none, true⟩

/-- Top active stream right after its buffer was consumed: buffer `None`,
rest `f` unread. -/
def topSt (f : List α) : FileStream α := ⟨f, none, false⟩

/-- Merge-loop state at the start of an iteration: streams `0..lows.length - 1`
with full buffers, the top active stream `lows.length` with an empty buffer
and rest `f`, and `m` exhausted streams above it. -/
def mkState (lows : List (α × List α)) (f : List α) (m : Nat) : List (FileStream α) :=
  lows.map fullSt ++ topSt f :: List.replicate m exhSt

theorem refreshOne_fullSt (p : α × List α) :
    FilesArray.refreshOne (fullSt p) = fullSt p := rfl

theorem refreshOne_exhSt : FilesArray.refreshOne (exhSt : FileStream α) = exhSt := rfl

theorem refreshOne_topSt_nil : FilesArray.refreshOne (topSt ([] : List α)) = exhSt := rfl

theorem refreshOne_topSt_cons (r : α) (rs : List α) :
    FilesArray.refreshOne (topSt (r :: rs)) = fullSt (r, rs) := rfl

theorem map_refreshOne_fullSt (L : List (α × List α)) :
    (L.map fullSt).map FilesArray.refreshOne = L.map fullSt := by
  rw [List.map_map]
  exact List.map_congr_left fun p _ => refreshOne_fullSt p

theorem all_exhausted_replicate (m : Nat) :
    ((List.replicate m (exhSt : FileStream α)).all fun s => s.exhausted) = true := by
  simp [List.all_eq_true, List.mem_replicate, exhSt]

/-- Refreshing a state whose top active stream still has records fills the
top buffer and reports that the merge continues. -/
theorem refresh_mkState_cons (lows : List (α × List α)) (r : α) (rs : List α) (m : Nat) :
    FilesArray.refresh (mkState lows (r :: rs) m) =
      (lows.map fullSt ++ fullSt (r, rs) :: List.replicate m exhSt, true) := by
  unfold FilesArray.refresh mkState
  rw [List.map_append, List.map_cons, map_refreshOne_fullSt, List.map_replicate,
    refreshOne_topSt_cons, refreshOne_exhSt]
  simp [List.all_append, fullSt]

/-- Refreshing a state whose top active stream is out of records exhausts
the top stream. -/
theorem refresh_mkState_nil (lows : List (α × List α)) (m : Nat) :
    FilesArray.refresh (mkState lows [] m) =
      (lows.map fullSt ++ List.replicate (m + 1) exhSt,
        !(lows.map fullSt ++ List.replicate (m + 1) exhSt).all fun s => s.exhausted) := by
  unfold FilesArray.refresh mkState
  rw [List.map_append, List.map_cons, map_refreshOne_fullSt, List.map_replicate,
    refreshOne_topSt_nil, refreshOne_exhSt, List.replicate_succ]

/-- The active view of a merge state, index-enumerated and filtered, has as
many entries as the state has non-exhausted streams. -/
theorem enumFrom_filter_length (p : γ → Bool) :
    ∀ (l : List γ) (n : Nat),
      ((List.enumFrom n l).filter fun q => p q.2).length = (l.filter p).length
  | [], _ => rfl
  | s :: l, n => by
    simp only [List.enumFrom_cons, List.filter_cons]
    by_cases h : p s <;> simp [h, enumFrom_filter_length p l (n + 1)]

theorem getDict_length (ss : List (FileStream α)) :
    (FilesArray.getDict ss).length = (ss.filter fun s => !s.exhausted).length := by
  unfold FilesArray.getDict
  rw [List.length_map]
  have he : ss.enum = List.enumFrom 0 ss := rfl
  rw [he]
  exact enumFrom_filter_length (fun s => !s.exhausted) ss 0

theorem mem_replicate_exhausted (m : Nat) :
    ∀ s ∈ List.replicate m (exhSt : FileStream α), s.exhausted = true := by
  intro s hs
  rw [List.eq_of_mem_replicate hs]
  rfl

theorem filter_not_exhausted_top (L : List (α × List α)) (q : α × List α)
    (t : List (FileStream α)) (ht : ∀ s ∈ t, s.exhausted = true) :
    ((L.map fullSt ++ fullSt q :: t).filter fun s => !s.exhausted)
      = L.map fullSt ++ [fullSt q] := by
  rw [List.filter_append, List.filter_cons]
  have h1 : (L.map fullSt).filter (fun s => !s.exhausted) = L.map fullSt := by
    rw [List.filter_eq_self]
    intro s hs
    obtain ⟨p, _, rfl⟩ := List.mem_map.mp hs
    rfl
  have h2 : t.filter (fun s => !s.exhausted) = [] := by
    rw [List.filter_eq_nil_iff]
    intro s hs
    simp [ht s hs]
  simp [h1, h2, fullSt]

/-- In a reachable merge state with `L.length + 1` active streams (all the
streams in `t` being exhausted), `NWayMerge.select` picks the top active
index `L.length` - the highest active stream index, not the stream holding
the smallest record. -/
theorem select_getDict_top [LinearOrder α] (L : List (α × List α)) (q : α × List α)
    (t : List (FileStream α)) (ht : ∀ s ∈ t, s.exhausted = true) :
    NWayMerge.select (FilesArray.getDict (L.map fullSt ++ fullSt q :: t))
      = some (L.length : Int) := by
  rw [NWayMerge.select_eq, getDict_length, filter_not_exhausted_top L q t ht]
  simp

theorem get_state_top (L : List (α × List α)) (x : FileStream α) (t : List (FileStream α)) :
    (L.map fullSt ++ x :: t)[L.length]? = some x := by
  rw [List.getElem?_append_right (by simp)]
  simp

theorem set_state_top (L : List (α × List α)) (x y : FileStream α) (t : List (FileStream α)) :
    (L.map fullSt ++ x :: t).set L.length y = L.map fullSt ++ y :: t := by
  rw [List.set_append]
  simp

/-- Consuming the top active stream's buffered record with `unshift`. -/
theorem unshift_state_top (L : List (α × List α)) (q : α × List α) (t : List (FileStream α)) :
    FilesArray.unshift (L.map fullSt ++ fullSt q :: t) L.length
      = some (some (some q.1), L.map fullSt ++ topSt q.2 :: t) := by
  unfold FilesArray.unshift
  rw [get_state_top]
  dsimp only
  rw [set_state_top]
  rfl

/-- Run lemma for the merge loop: started in a reachable normal-form state,
the loop first drains the rest `f` of the top active stream, then the
streams below it in descending index order, appending all their remaining
records to `out`.  Every iteration preserves the normal form - the active
streams stay the contiguous index range `0..k-1` - and consumes one record,
so any fuel beyond the number of remaining records is enough. -/
theorem FileMerger.mergeLoop_run [LinearOrder α] :
    ∀ (fuel : Nat) (lows : List (α × List α)) (f : List α) (m : Nat) (out : List α),
      f.length + lows.length + (lows.map fun p => p.2.length).sum + 1 ≤ fuel →
      FileMerger.mergeLoop fuel (mkState lows f m) out =
        some (out ++ f ++ ((lows.map fun p => p.1 :: p.2).reverse).flatten) := by
  intro fuel
  induction fuel with
  | zero => intro lows f m out h; exact absurd h (by omega)
  | succ fuel ih =>
    intro lows f m out hfuel
    cases f with
    | cons r rs =>
      rw [FileMerger.mergeLoop, refresh_mkState_cons]
      dsimp only
      rw [if_pos rfl,
        select_getDict_top lows (r, rs) (List.replicate m exhSt) (mem_replicate_exhausted m)]
      dsimp only
      rw [if_pos (Int.natCast_nonneg lows.length)]
      simp only [Int.toNat_natCast]
      rw [unshift_state_top]
      dsimp only
      have hstep := ih lows rs m (out ++ [r]) (by
        simp only [List.length_cons] at hfuel
        omega)
      simp only [mkState] at hstep
      rw [hstep]
      simp
    | nil =>
      rcases List.eq_nil_or_concat lows with rfl | ⟨L, q, hcq⟩
      · rw [FileMerger.mergeLoop, refresh_mkState_nil]
        dsimp only
        rw [if_neg (by simp [List.all_eq_true, List.mem_replicate, exhSt])]
        simp
      · rw [List.concat_eq_append] at hcq
        subst hcq
        rw [FileMerger.mergeLoop, refresh_mkState_nil]
        have hshape : ((L ++ [q]).map fullSt ++ List.replicate (m + 1) (exhSt (α := α)))
            = L.map fullSt ++ fullSt q :: List.replicate (m + 1) exhSt := by
          simp [List.map_append]
        rw [hshape]
        dsimp only
        rw [if_pos (by simp [List.all_append, fullSt]),
          select_getDict_top L q (List.replicate (m + 1) exhSt) (mem_replicate_exhausted (m + 1))]
        dsimp only
        rw [if_pos (Int.natCast_nonneg L.length)]
        simp only [Int.toNat_natCast]
        rw [unshift_state_top]
        dsimp only
        have hstep := ih L q.2 (m + 1) (out ++ [q.1]) (by
          simp only [List.length_nil, List.length_append, List.length_cons,
            List.map_append, List.map_cons, List.map_nil, List.sum_append,
            List.sum_cons, List.sum_nil] at hfuel
          omega)
        simp only [mkState] at hstep
        rw [hstep]
        simp

/-- A list of non-empty blocks decomposes into head/rest pairs. -/
theorem exists_pairs_of_ne_nil :
    ∀ bs : List (List α), (∀ b ∈ bs, b ≠ []) →
      ∃ ps : List (α × List α), bs = ps.map fun p => p.1 :: p.2
  | [], _ => ⟨[], rfl⟩
  | b :: bs, h => by
    obtain ⟨r, rs, rfl⟩ := List.exists_cons_of_ne_nil (h b (List.mem_cons_self b bs))
    obtain ⟨ps, rfl⟩ := exists_pairs_of_ne_nil bs fun c hc => h c (List.mem_cons_of_mem _ hc)
    exact ⟨(r, rs) :: ps, rfl⟩

/-- The first `refresh` of the merge fills every buffer with the head of
its block. -/
theorem refresh_init (ps : List (α × List α)) :
    FilesArray.refresh
        ((ps.map fun p => p.1 :: p.2).map fun b => (⟨b, none, false⟩ : FileStream α)) =
      (ps.map fullSt, !(ps.map fullSt).all fun s => s.exhausted) := by
  unfold FilesArray.refresh
  rw [List.map_map, List.map_map]
  have h1 : ps.map ((FilesArray.refreshOne ∘
        fun b => (⟨b, none, false⟩ : FileStream α)) ∘ fun p => p.1 :: p.2)
      = ps.map fullSt :=
    List.map_congr_left fun p _ => rfl
  rw [h1]

theorem sum_map_cons_length :
    ∀ L : List (α × List α),
      ((L.map fun p => p.1 :: p.2).map List.length).sum
        = L.length + (L.map fun p => p.2.length).sum
  | [] => rfl
  | p :: L => by
    simp only [List.map_cons, List.sum_cons, List.length_cons, sum_map_cons_length L]
    omega

/-- `FileMerger.merge` on blocks given as head/rest pairs emits the block
contents concatenated in descending block-index order. -/
theorem FileMerger.merge_pairs [LinearOrder α] (ps : List (α × List α)) :
    FileMerger.merge (ps.map fun p => p.1 :: p.2) =
      some ((ps.map fun p => p.1 :: p.2).reverse.flatten) := by
  rcases List.eq_nil_or_concat ps with rfl | ⟨L, q, hcq⟩
  · rfl
  · rw [List.concat_eq_append] at hcq
    subst hcq
    unfold FileMerger.merge
    rw [FileMerger.mergeLoop, refresh_init]
    have hshape : ((L ++ [q]).map fullSt : List (FileStream α))
        = L.map fullSt ++ fullSt q :: [] := by
      simp [List.map_append]
    rw [hshape]
    dsimp only
    rw [if_pos (by simp [List.all_append, fullSt]),
      select_getDict_top L q [] (by intro s hs; cases hs)]
    dsimp only
    rw [if_pos (Int.natCast_nonneg L.length)]
    simp only [Int.toNat_natCast]
    rw [unshift_state_top]
    dsimp only
    have hstep := FileMerger.mergeLoop_run
      (((L ++ [q]).map fun p => p.1 :: p.2).map List.length).sum L q.2 0 [q.1] (by
        rw [sum_map_cons_length]
        simp only [List.length_append, List.length_cons, List.length_nil,
          List.map_append, List.map_cons, List.map_nil, List.sum_append,
          List.sum_cons, List.sum_nil]
        omega)
    simp only [mkState, List.replicate_zero] at hstep
    simp only [List.nil_append]
    rw [hstep]
    simp

/-- `FileMerger.merge` over non-empty blocks (as every block written by the
splitter is): the output is the concatenation of the block contents in
descending block-index order - a consequence of the selection defect. -/
theorem FileMerger.merge_eq_of_ne_nil [LinearOrder α] (bs : List (List α))
    (hb : ∀ b ∈ bs, b ≠ []) :
    FileMerger.merge bs = some (bs.reverse.flatten) := by
  obtain ⟨ps, rfl⟩ := exists_pairs_of_ne_nil bs hb
  exact FileMerger.merge_pairs ps

theorem flatten_reverse_perm : ∀ bs : List (List α), (bs.reverse.flatten).Perm bs.flatten
  | [] => List.Perm.refl _
  | b :: bs => by
    rw [List.reverse_cons, List.flatten_append, List.flatten_cons]
    have h1 := (flatten_reverse_perm bs).append_right ([b].flatten)
    have h2 : (bs.flatten ++ [b].flatten).Perm ([b].flatten ++ bs.flatten) :=
      List.perm_append_comm
    simpa using h1.trans h2

/-- The sorting pipeline always succeeds for a positive block budget, and
the output is a permutation of the input. -/
theorem ExternalSort.sort_perm [LinearOrder α] (B : Nat) (hB : B ≠ 0) (size : α → Nat)
    (l : List α) :
    ∃ out, ExternalSort.sort B size l = some out ∧ out.Perm l := by
  refine ⟨((FileSplitter.split (fun a b => a ≤ b) B size l).reverse).flatten, ?_, ?_⟩
  · unfold ExternalSort.sort
    rw [if_neg hB]
    exact FileMerger.merge_eq_of_ne_nil _ (FileSplitter.split_ne_nil _ B size l)
  · exact (flatten_reverse_perm _).trans (FileSplitter.split_flatten_perm _ B size l)

/-! ## The concrete scenario of the specification -/

/-- Splitting `["banana\n", "apple\n", "cherry\n", "apple\n"]` with block
budget 8 reads two runs of two lines and sorts each. -/
theorem split_concrete :
    FileSplitter.split (fun a b : String => a ≤ b) 8 String.length
        ["banana\n", "apple\n", "cherry\n", "apple\n"]
      = [["apple\n", "banana\n"], ["apple\n", "cherry\n"]] := by
  have hchunks : FileSplitter.splitChunks 8 String.length
      ["banana\n", "apple\n", "cherry\n", "apple\n"]
      = [["banana\n", "apple\n"], ["cherry\n", "apple\n"]] := by decide
  have h1 : ¬ ("banana\n" : String) ≤ "apple\n" := by
    rw [String.le_iff_toList_le]; decide
  have h2 : ¬ ("cherry\n" : String) ≤ "apple\n" := by
    rw [String.le_iff_toList_le]; decide
  unfold FileSplitter.split
  rw [hchunks]
  simp [List.insertionSort, List.orderedInsert, h1, h2]
  decide

/-- Merging the two sorted blocks of the concrete scenario: the defective
selection empties block 1 first, then block 0. -/
theorem merge_concrete :
    FileMerger.merge [["apple\n", "banana\n"], ["apple\n", "cherry\n"]]
      = some ["apple\n", "cherry\n", "apple\n", "banana\n"] := by decide

/-! ## The claims -/

/-- C1: the claim states that the output of `ExternalSort.sort` is always
sorted.  It is not: on the four-line input of the specification's concrete
scenario, with block budget 8 (two blocks of two lines), the pipeline
outputs `["apple\n", "cherry\n", "apple\n", "banana\n"]`, whose adjacent
pair `("cherry\n", "apple\n")` violates the ordering.  The defect is
`NWayMerge.select`, which never updates `min_str` and therefore returns the
highest active index instead of the minimum. -/
theorem spec_c1_output_not_sorted :
    ExternalSort.sort 8 String.length ["banana\n", "apple\n", "cherry\n", "apple\n"]
        = some ["apple\n", "cherry\n", "apple\n", "banana\n"] ∧
      ¬ List.Chain' (fun a b : String => a ≤ b)
        ["apple\n", "cherry\n", "apple\n", "banana\n"] := by
  have hcherry : ¬ ("cherry\n" : String) ≤ "apple\n" := by
    rw [String.le_iff_toList_le]; decide
  constructor
  · have hsort : ExternalSort.sort 8 String.length
        ["banana\n", "apple\n", "cherry\n", "apple\n"]
        = FileMerger.merge (FileSplitter.split (fun a b : String => a ≤ b) 8 String.length
            ["banana\n", "apple\n", "cherry\n", "apple\n"]) := by
      unfold ExternalSort.sort
      rw [if_neg (by decide)]
    rw [hsort, split_concrete, merge_concrete]
  · intro hch
    rw [List.chain'_cons, List.chain'_cons] at hch
    exact hcherry hch.2.1

/-- C2: the claim states that `NWayMerge.select` returns the index of the
smallest pending record (lowest index on ties).  It does not: with stream 0
holding `"a"` and stream 1 holding `"b"`, the smallest record is at index 0
but `select` returns index 1, because `min_str` is never updated and the
loop degenerates to `min_index = len(choices) - 1`. -/
theorem spec_c2_select_not_minimum :
    NWayMerge.select
        [((0 : Nat), some (some ("a" : String))), ((1 : Nat), some (some ("b" : String)))]
        = some 1 ∧
      ("a" : String) < "b" := by
  constructor
  · decide
  · rw [String.lt_iff_toList_lt]; decide

/-- C3: the multiset of records output by the split-then-merge pipeline
equals the multiset of the input records, for every input and any positive
block budget (hence any number of blocks, zero included).  The merge emits
the blocks in the wrong order, but it loses and duplicates nothing. -/
theorem spec_c3_multiset_preserved [LinearOrder α] (size : α → Nat) (B : Nat) (hB : B ≠ 0)
    (l : List α) :
    ∃ out, ExternalSort.sort B size l = some out ∧
      ((out : Multiset α) = (l : Multiset α)) := by
  obtain ⟨out, hout, hperm⟩ := ExternalSort.sort_perm B hB size l
  exact ⟨out, hout, Multiset.coe_eq_coe.mpr hperm⟩

theorem spec_c3_multiset_preserved_witness :
    ((8 : Nat) ≠ 0) ∧
      ∃ out, ExternalSort.sort 8 String.length ["b\n", "a\n"] = some out ∧
        ((out : Multiset String) = ((["b\n", "a\n"] : List String) : Multiset String)) :=
  ⟨by decide, spec_c3_multiset_preserved String.length 8 (by decide) ["b\n", "a\n"]⟩

/-- C4: on the concrete scenario the split phase produces the two sorted
blocks the claim names, but merging them yields
`["apple\n", "cherry\n", "apple\n", "banana\n"]`, not the claimed
`["apple\n", "apple\n", "banana\n", "cherry\n"]`: the defective selection
drains block 1 before block 0. -/
theorem spec_c4_concrete_scenario :
    FileSplitter.splitChunks 8 String.length ["banana\n", "apple\n", "cherry\n", "apple\n"]
        = [["banana\n", "apple\n"], ["cherry\n", "apple\n"]] ∧
      FileSplitter.split (fun a b : String => a ≤ b) 8 String.length
          ["banana\n", "apple\n", "cherry\n", "apple\n"]
        = [["apple\n", "banana\n"], ["apple\n", "cherry\n"]] ∧
      FileMerger.merge [["apple\n", "banana\n"], ["apple\n", "cherry\n"]]
        = some ["apple\n", "cherry\n", "apple\n", "banana\n"] ∧
      (["apple\n", "cherry\n", "apple\n", "banana\n"] : List String)
        ≠ ["apple\n", "apple\n", "banana\n", "cherry\n"] :=
  ⟨by decide, split_concrete, merge_concrete, by decide⟩

/-- C5: for every non-empty mapping of active streams, `min_str` stays
`None`, the record comparison is never evaluated, and `NWayMerge.select`
returns `len(choices) - 1`, an index independent of the pending records'
contents. -/
theorem spec_c5_select_last_index [LinearOrder α]
    (choices : List (Nat × Option (Option α))) (_hne : choices ≠ []) :
    NWayMerge.select choices = some ((choices.length : Int) - 1) :=
  NWayMerge.select_eq choices

theorem spec_c5_select_last_index_witness :
    (([((0 : Nat), some (some ("x" : String))), ((1 : Nat), some (some ("y" : String)))]
        : List (Nat × Option (Option String))) ≠ []) ∧
      NWayMerge.select ([((0 : Nat), some (some ("x" : String))),
          ((1 : Nat), some (some ("y" : String)))] : List (Nat × Option (Option String)))
        = some ((2 : Int) - 1) :=
  ⟨by decide,
    spec_c5_select_last_index ([((0 : Nat), some (some ("x" : String))),
      ((1 : Nat), some (some ("y" : String)))] : List (Nat × Option (Option String)))
      (by decide)⟩

/-- C6: merging `N ≥ 1` block files (non-empty, as every block file written
by this program is) keeps the non-exhausted streams a contiguous range
`0..k-1` of stream indices - the normal form threaded through
`FileMerger.mergeLoop_run` - selects the highest active index at every
iteration (second conjunct), and outputs the blocks concatenated in
descending block-index order: block N-1, ..., block 0 (first conjunct). -/
theorem spec_c6_merge_descending [LinearOrder α] (bs : List (List α))
    (_hN : 1 ≤ bs.length) (hb : ∀ b ∈ bs, b ≠ []) :
    FileMerger.merge bs = some (bs.reverse.flatten) ∧
      ∀ (L : List (α × List α)) (q : α × List α) (t : List (FileStream α)),
        (∀ s ∈ t, s.exhausted = true) →
        NWayMerge.select (FilesArray.getDict (L.map fullSt ++ fullSt q :: t))
          = some (L.length : Int) :=
  ⟨FileMerger.merge_eq_of_ne_nil bs hb, fun L q t ht => select_getDict_top L q t ht⟩

theorem spec_c6_merge_descending_witness :
    FileMerger.merge [[("a" : String)], [("b" : String)]] = some ["b", "a"] := by
  have h := spec_c6_merge_descending [[("a" : String)], [("b" : String)]]
    (by decide) (by decide)
  exact h.1.trans (by decide)

/-- C7: every block written by `FileSplitter.split` is internally sorted
under the configured ordering (here the order induced by a key function
`k`; the default order is the case `k = id`), and the in-block sort is
stable: any subsequence of the block's run that is already in order is
still a subsequence of the sorted block, so equal-key records keep their
original relative order. -/
theorem spec_c7_blocks_sorted_stable [LinearOrder β] (k : α → β) (B : Nat)
    (size : α → Nat) (l : List α) (b : List α)
    (hb : b ∈ FileSplitter.split (keyLE k) B size l) :
    b.Sorted (keyLE k) ∧
      ∃ c ∈ FileSplitter.splitChunks B size l,
        b = c.insertionSort (keyLE k) ∧
        ∀ s : List α, s.Pairwise (keyLE k) → s.Sublist c → s.Sublist b := by
  simp only [FileSplitter.split, List.mem_map] at hb
  obtain ⟨c, hc, rfl⟩ := hb
  exact ⟨List.sorted_insertionSort (keyLE k) c, c, hc, rfl,
    fun s hp hsub => List.sublist_insertionSort hp hsub⟩

theorem spec_c7_blocks_sorted_stable_witness :
    (["a\n", "bb\n"] ∈ FileSplitter.split (keyLE String.length) 8 String.length
        ["bb\n", "a\n"]) ∧
      List.Sorted (keyLE String.length) ["a\n", "bb\n"] :=
  ⟨by decide,
    (spec_c7_blocks_sorted_stable String.length 8 String.length ["bb\n", "a\n"]
      ["a\n", "bb\n"] (by decide)).1⟩

/-- C8: `FilesArray.refresh` acts independently on every stream (it maps
`refreshOne` over the array): a stream with an empty buffer that is not
exhausted is filled with one record read from its file, or marked exhausted
when the read hits end of file; every other stream is left unchanged; and
the returned flag is `false` exactly when every stream is exhausted after
these reads. -/
theorem spec_c8_refresh (ss : List (FileStream α)) (s : FileStream α) :
    (FilesArray.refresh ss).1 = ss.map FilesArray.refreshOne ∧
      (s.buf = none → s.exhausted = false → ∀ r rs, s.file = r :: rs →
        FilesArray.refreshOne s = ⟨rs, some (some r), false⟩) ∧
      (s.buf = none → s.exhausted = false → s.file = [] →
        FilesArray.refreshOne s = ⟨[], some none, true⟩) ∧
      ((s.buf ≠ none ∨ s.exhausted = true) → FilesArray.refreshOne s = s) ∧
      ((FilesArray.refresh ss).2 = false ↔
        ∀ t ∈ (FilesArray.refresh ss).1, t.exhausted = true) := by
  refine ⟨rfl, ?_, ?_, ?_, ?_⟩
  · intro hbuf hex r rs hfile
    simp [FilesArray.refreshOne, hbuf, hex, hfile]
  · intro hbuf hex hfile
    simp [FilesArray.refreshOne, hbuf, hex, hfile]
  · intro h
    rcases h with h | h
    · cases hb : s.buf with
      | none => exact absurd hb h
      | some v => simp [FilesArray.refreshOne, hb]
    · simp [FilesArray.refreshOne, h]
  · simp [FilesArray.refresh, List.all_eq_true]

theorem spec_c8_refresh_witness :
    FilesArray.refreshOne (⟨[("x" : String)], none, false⟩ : FileStream String)
        = ⟨[], some (some ("x" : String)), false⟩ ∧
      FilesArray.refreshOne (⟨[], none, false⟩ : FileStream String)
        = ⟨[], some none, true⟩ :=
  ⟨(spec_c8_refresh [] (⟨[("x" : String)], none, false⟩ : FileStream String)).2.1
      rfl rfl ("x" : String) [] rfl,
    (spec_c8_refresh [] (⟨[], none, false⟩ : FileStream String)).2.2.1 rfl rfl rfl⟩

/-- C9: an empty input yields zero runs, hence zero blocks and an empty
block-filename list, and the merge over zero blocks stops at its first
`refresh` (0 exhausted streams out of 0) with an empty output. -/
theorem spec_c9_empty_input [LinearOrder α] (r : α → α → Prop) [DecidableRel r] (B : Nat)
    (size : α → Nat) :
    FileSplitter.splitChunks B size ([] : List α) = [] ∧
      FileSplitter.split r B size ([] : List α) = [] ∧
      FileMerger.merge ([] : List (List α)) = some [] :=
  ⟨rfl, rfl, rfl⟩

theorem spec_c9_empty_input_witness :
    FileSplitter.split (fun a b : String => a ≤ b) 8 String.length ([] : List String) = [] ∧
      FileMerger.merge ([] : List (List String)) = some [] :=
  ⟨(spec_c9_empty_input (fun a b : String => a ≤ b) 8 String.length).2.1,
    (spec_c9_empty_input (fun a b : String => a ≤ b) 8 String.length).2.2⟩

/-- C10: the claim states that `NWayMerge.select` on an empty mapping fails
with a `NoActiveStreams` error.  It does not fail: the loop body never runs
and the function returns the initial `min_index = -1`, a normal value. -/
theorem spec_c10_select_empty_value :
    NWayMerge.select ([] : List (Nat × Option (Option String))) = some (-1) ∧
      (some (-1) : Option Int) ≠ none :=
  ⟨by decide, by decide⟩

/-- C10 (amended): `NWayMerge.select` on an empty mapping returns the
sentinel `-1` instead of raising; no error value is produced. -/
theorem spec_c10_select_empty_amended [LinearOrder α] :
    NWayMerge.select ([] : List (Nat × Option (Option α))) = some (-1) := by
  have h := NWayMerge.select_eq ([] : List (Nat × Option (Option α)))
  simpa using h

theorem spec_c10_select_empty_amended_witness :
    NWayMerge.select ([] : List (Nat × Option (Option Nat))) = some (-1) :=
  spec_c10_select_empty_amended

end Extsort
